import Mathlib

/-!
Verification of the `reprise.py` static site generator.

The definitions below are a shallow embedding of `src/reprise.py`:
pure Python functions become Lean functions, the `__main__` driver becomes
explicit state passing over an abstract filesystem, and fallible steps
return `Except`/`Option`.  External collaborators (markup renderer,
template renderer, the `time` module, `smartypants`, pygments) are
parameters of the embedding, as the specification treats them as black
boxes.  Calendar arithmetic models CPython's `datetime` (proleptic
Gregorian ordinals, as in `datetime.date.toordinal`).
-/

namespace Reprise

/-! ### Python character classes (ASCII semantics of Python 2 `re` and `str`) -/

/-- Model of the regex class `\d` (ASCII digits `0`-`9`, code points 48-57). -/
def isDigitChar (c : Char) : Bool := 48 ≤ c.toNat && c.toNat ≤ 57

/-- Model of the regex class `\w` without `re.UNICODE`: `[a-zA-Z0-9_]`
(code points 97-122, 65-90, 48-57, 95). -/
def isWordChar (c : Char) : Bool :=
  (97 ≤ c.toNat && c.toNat ≤ 122) || (65 ≤ c.toNat && c.toNat ≤ 90) ||
    isDigitChar c || c.toNat == 95

/-- Model of the regex class `\s`: the six ASCII whitespace characters
(space, tab, newline, carriage return, vertical tab, form feed). -/
def isSpaceChar (c : Char) : Bool :=
  c.toNat == 32 || c.toNat == 9 || c.toNat == 10 || c.toNat == 13 ||
    c.toNat == 11 || c.toNat == 12

/-! ### `slugify` (reprise.py lines 167-169) -/

/-- Model of `str.replace('.', ' ')` on a single character. -/
def dotToSpace (c : Char) : Char := if c = '.' then ' ' else c

/-- Characters kept by the inner substitution `re.sub(r'[^\w\s-]', '', _)`:
word characters, whitespace, and the hyphen (code point 45). -/
def keepChar (c : Char) : Bool := isWordChar c || isSpaceChar c || c.toNat == 45

/-- Model of the outer substitution `re.sub(r'\s+', '-', _)`: every maximal
run of whitespace becomes a single hyphen. -/
def collapseWs : List Char → List Char
  | [] => []
  | c :: rest =>
    if isSpaceChar c then '-' :: collapseWs (rest.dropWhile (fun x => isSpaceChar x))
    else c :: collapseWs rest
termination_by l => l.length
decreasing_by
  · have := List.Sublist.length_le
      (List.dropWhile_sublist (l := rest) (fun x => isSpaceChar x))
    simp only [List.length_cons]
    omega
  · simp only [List.length_cons]
    omega

/-- Model of `slugify` on a character list:
`re.sub(r'\s+', '-', re.sub(r'[^\w\s-]', '', str.replace('.', ' ').lower()))`. -/
def slugifyAux (l : List Char) : List Char :=
  collapseWs (((l.map dotToSpace).map Char.toLower).filter keepChar)

/-- Function `slugify` from reprise.py. -/
def slugify (s : String) : String := String.mk (slugifyAux s.data)

/-- Model of `meta[3].replace('.', ' ')`, the title derivation. -/
def titleOf (raw : String) : String := String.mk (raw.data.map dotToSpace)

/-! ### Decimal formatting (model of `strftime` field padding) -/

/-- Decimal digit character. -/
def digitChar (n : Nat) : Char := Char.ofNat (48 + n)

/-- Unpadded decimal representation (as `strftime('%Y')` on glibc). -/
def natRepr (n : Nat) : List Char :=
  if n < 10 then [digitChar n]
  else natRepr (n / 10) ++ [digitChar (n % 10)]
termination_by n
decreasing_by exact Nat.div_lt_self (by omega) (by omega)

/-- Two-digit zero-padded field (as `strftime('%m')`, `'%d'`, `'%H'`, ...). -/
def pad2 (n : Nat) : List Char := if n < 10 then '0' :: natRepr n else natRepr n

/-- Four-digit zero-padded year (as `datetime.isoformat` prints years). -/
def pad4 (n : Nat) : List Char :=
  if n < 10 then '0' :: '0' :: '0' :: natRepr n
  else if n < 100 then '0' :: '0' :: natRepr n
  else if n < 1000 then '0' :: natRepr n
  else natRepr n

/-! ### Calendar model (CPython `datetime.date`, proleptic Gregorian) -/

/-- Date record: the `datetime(year, month, day)` value built by the parser. -/
structure PDate where
  year : Nat
  month : Nat
  day : Nat
deriving Repr, DecidableEq

/-- Gregorian leap-year rule. -/
def isLeap (y : Nat) : Bool := (y % 4 == 0 && y % 100 != 0) || y % 400 == 0

/-- Length of a month. -/
def daysInMonth (y m : Nat) : Nat :=
  if m = 2 then (if isLeap y then 29 else 28)
  else if m = 4 ∨ m = 6 ∨ m = 9 ∨ m = 11 then 30
  else 31

/-- Calendar-shape validity of a date (month and day ranges). -/
def validMD (dt : PDate) : Bool :=
  1 ≤ dt.month && dt.month ≤ 12 && 1 ≤ dt.day && dt.day ≤ daysInMonth dt.year dt.month

/-- Model of CPython `_days_before_year`. -/
def daysBeforeYear (y : Nat) : Nat :=
  365 * (y - 1) + (y - 1) / 4 - (y - 1) / 100 + (y - 1) / 400

/-- Model of CPython `_days_before_month` (closed form of the month table). -/
def daysBeforeMonth (y m : Nat) : Nat :=
  (367 * m - 362) / 12 - (if 2 < m then (if isLeap y then 1 else 2) else 0)

/-- Model of `datetime.date.toordinal`: day 1 is 0001-01-01. -/
def toOrdinal (dt : PDate) : Nat :=
  daysBeforeYear dt.year + daysBeforeMonth dt.year dt.month + dt.day

/-- Successor day in the proleptic Gregorian calendar. -/
def nextDay (dt : PDate) : PDate :=
  if dt.day < daysInMonth dt.year dt.month then ⟨dt.year, dt.month, dt.day + 1⟩
  else if dt.month < 12 then ⟨dt.year, dt.month + 1, 1⟩
  else ⟨dt.year + 1, 1, 1⟩

/-- Predecessor day in the proleptic Gregorian calendar. -/
def prevDay (dt : PDate) : PDate :=
  if 1 < dt.day then ⟨dt.year, dt.month, dt.day - 1⟩
  else if 1 < dt.month then ⟨dt.year, dt.month - 1, daysInMonth dt.year (dt.month - 1)⟩
  else ⟨dt.year - 1, 12, 31⟩

theorem daysInMonth_pos (y m : Nat) : 1 ≤ daysInMonth y m := by
  unfold daysInMonth
  split_ifs <;> omega

theorem daysInMonth_le (y m : Nat) : daysInMonth y m ≤ 31 := by
  unfold daysInMonth
  split_ifs <;> omega

theorem isLeap_iff (y : Nat) : isLeap y = true ↔ ((y % 4 = 0 ∧ y % 100 ≠ 0) ∨ y % 400 = 0) := by
  simp [isLeap, Bool.or_eq_true, Bool.and_eq_true]

set_option maxHeartbeats 1000000 in
theorem daysBeforeYear_succ (y : Nat) (hy : 1 ≤ y) :
    daysBeforeYear (y + 1) = daysBeforeYear y + 365 + (if isLeap y then 1 else 0) := by
  rcases hL : isLeap y with _ | _
  · have hL2 : ¬((y % 4 = 0 ∧ y % 100 ≠ 0) ∨ y % 400 = 0) := by
      rw [← isLeap_iff, hL]; simp
    simp only [daysBeforeYear, hL, if_false, Bool.false_eq_true, Nat.add_sub_cancel]
    omega
  · have hL2 : (y % 4 = 0 ∧ y % 100 ≠ 0) ∨ y % 400 = 0 := (isLeap_iff y).mp hL
    simp only [daysBeforeYear, hL, if_true, Nat.add_sub_cancel]
    omega

theorem daysBeforeMonth_succ (y m : Nat) (h1 : 1 ≤ m) (h2 : m ≤ 11) :
    daysBeforeMonth y (m + 1) = daysBeforeMonth y m + daysInMonth y m := by
  rcases hL : isLeap y with _ | _ <;>
    · interval_cases m <;>
        · simp only [daysBeforeMonth, daysInMonth, hL]
          norm_num

theorem nextDay_toOrdinal (dt : PDate) (h : validMD dt = true) (hy : 1 ≤ dt.year) :
    validMD (nextDay dt) = true ∧ toOrdinal (nextDay dt) = toOrdinal dt + 1 := by
  obtain ⟨y, m, d⟩ := dt
  have hy2 : 1 ≤ y := hy
  simp only [validMD, Bool.and_eq_true, decide_eq_true_eq] at h
  obtain ⟨⟨⟨hm1, hm2⟩, hd1⟩, hd2⟩ := h
  unfold nextDay
  dsimp only
  by_cases hlt : d < daysInMonth y m
  · rw [if_pos hlt]
    refine ⟨?_, ?_⟩
    · simp only [validMD, Bool.and_eq_true, decide_eq_true_eq]
      try dsimp only
      omega
    · simp only [toOrdinal]
      try dsimp only
      omega
  · rw [if_neg hlt]
    have hde : d = daysInMonth y m := by omega
    by_cases hm : m < 12
    · rw [if_pos hm]
      constructor
      · simp only [validMD, Bool.and_eq_true, decide_eq_true_eq]
        try dsimp only
        have := daysInMonth_pos y (m + 1)
        omega
      · simp only [toOrdinal]
        try dsimp only
        have := daysBeforeMonth_succ y m hm1 (by omega)
        omega
    · rw [if_neg hm]
      have hm12 : m = 12 := by omega
      subst hm12
      have hd31 : d = 31 := by
        simpa [daysInMonth] using hde
      subst hd31
      constructor
      · simp [validMD, daysInMonth]
      · simp only [toOrdinal]
        try dsimp only
        have h1 := daysBeforeYear_succ y (by omega)
        have h2 : daysBeforeMonth y 12 = 334 + (if isLeap y then 1 else 0) := by
          simp only [daysBeforeMonth]
          split_ifs <;> omega
        have h3 : daysBeforeMonth (y + 1) 1 = 0 := by
          norm_num [daysBeforeMonth]
        omega

theorem prevDay_toOrdinal (dt : PDate) (h : validMD dt = true) (hy : 2 ≤ dt.year) :
    validMD (prevDay dt) = true ∧ toOrdinal (prevDay dt) + 1 = toOrdinal dt := by
  obtain ⟨y, m, d⟩ := dt
  have hy2 : 2 ≤ y := hy
  simp only [validMD, Bool.and_eq_true, decide_eq_true_eq] at h
  obtain ⟨⟨⟨hm1, hm2⟩, hd1⟩, hd2⟩ := h
  unfold prevDay
  dsimp only
  by_cases hgt : 1 < d
  · rw [if_pos hgt]
    refine ⟨?_, ?_⟩
    · simp only [validMD, Bool.and_eq_true, decide_eq_true_eq]
      try dsimp only
      omega
    · simp only [toOrdinal]
      try dsimp only
      omega
  · rw [if_neg hgt]
    have hde : d = 1 := by omega
    subst hde
    by_cases hm : 1 < m
    · rw [if_pos hm]
      constructor
      · simp only [validMD, Bool.and_eq_true, decide_eq_true_eq]
        try dsimp only
        have := daysInMonth_pos y (m - 1)
        omega
      · simp only [toOrdinal]
        try dsimp only
        have := daysBeforeMonth_succ y (m - 1) (by omega) (by omega)
        have hmm : m - 1 + 1 = m := by omega
        rw [hmm] at this
        omega
    · rw [if_neg hm]
      have hm1' : m = 1 := by omega
      subst hm1'
      constructor
      · simp [validMD, daysInMonth]
      · simp only [toOrdinal]
        try dsimp only
        have h1 := daysBeforeYear_succ (y - 1) (by omega)
        have hyy : y - 1 + 1 = y := by omega
        rw [hyy] at h1
        have h2 : daysBeforeMonth (y - 1) 12 = 334 + (if isLeap (y - 1) then 1 else 0) := by
          simp only [daysBeforeMonth]
          split_ifs <;> omega
        have h3 : daysBeforeMonth y 1 = 0 := by
          norm_num [daysBeforeMonth]
        omega

/-! ### The `time` module environment and `rfc3339` (reprise.py lines 179-181) -/

/-- Process time environment: the fields of Python's `time` module read by
`rfc3339` at generation time. `timezone`/`altzone` are seconds west of UTC. -/
structure TimeEnv where
  daylight : Bool
  timezone : Int
  altzone : Int

/-- Model of `offset = -time.altzone if time.daylight else -time.timezone`. -/
def tzOffset (tz : TimeEnv) : Int := if tz.daylight then -tz.altzone else -tz.timezone

/-- Iterated successor day. -/
def nextDays : Nat → PDate → PDate
  | 0, dt => dt
  | n + 1, dt => nextDays n (nextDay dt)

/-- Iterated predecessor day. -/
def prevDays : Nat → PDate → PDate
  | 0, dt => dt
  | n + 1, dt => prevDays n (prevDay dt)

/-- Signed day shift on a calendar date (ordinal addition, as in
`datetime.__add__`). -/
def addDays (k : Int) (dt : PDate) : PDate :=
  if 0 ≤ k then nextDays k.toNat dt else prevDays (-k).toNat dt

/-- Layout of `strftime('%Y-%m-%dT%H:%M:%SZ')`. -/
def fmtRfc3339 (dt : PDate) (hh mi ss : Nat) : List Char :=
  natRepr dt.year ++ '-' :: pad2 dt.month ++ '-' :: pad2 dt.day ++
    'T' :: pad2 hh ++ ':' :: pad2 mi ++ ':' :: pad2 ss ++ ['Z']

/-- Model of `rfc3339` from reprise.py:
`(date + timedelta(seconds=offset)).strftime('%Y-%m-%dT%H:%M:%SZ')`.
`timedelta(seconds=off)` normalizes to `floor(off/86400)` days and
`off mod 86400` seconds, and adding it to the midnight datetime `date`
shifts the ordinal by the day count and sets the time of day. -/
def rfc3339 (tz : TimeEnv) (dt : PDate) : String :=
  let off := tzOffset tz
  let dayShift := Int.ediv off 86400
  let sod := (Int.emod off 86400).toNat
  let dt2 := addDays dayShift dt
  String.mk (fmtRfc3339 dt2 (sod / 3600) (sod % 3600 / 60) (sod % 60))

/-- Model of `datetime.isoformat()` on the midnight value parsed for an entry. -/
def isoformat (dt : PDate) : String :=
  String.mk (pad4 dt.year) ++ "-" ++ String.mk (pad2 dt.month) ++ "-" ++
    String.mk (pad2 dt.day) ++ "T00:00:00"

/-- Model of `date.strftime('%Y-%m-%d')`. -/
def displayDate (dt : PDate) : String :=
  String.mk (natRepr dt.year) ++ "-" ++ String.mk (pad2 dt.month) ++ "-" ++
    String.mk (pad2 dt.day)

/-! ### Site constants (reprise.py lines 25-27) -/

def TITLE : String := "Web"

def URL : String := "http://simonzimmermann.com"

def STYLESHEET : String := "style.css"

def AUTHOR_name : String := "Simon Zimmermann"

/-! ### `atom_id` (reprise.py lines 171-177) -/

/-- Model of `re.sub(r'http://([^/]+).*', r'\1', URL)`: when the URL starts
with `http://`, the result is the host portion (everything up to the next
slash); otherwise the pattern does not match and the string is unchanged. -/
def urlDomain (url : String) : String :=
  match url.data with
  | 'h' :: 't' :: 't' :: 'p' :: ':' :: '/' :: '/' :: rest =>
    String.mk (rest.takeWhile (fun c => c ≠ '/'))
  | _ => url

/-! ### Entries (reprise.py lines 79-100) -/

/-- The `date` dictionary stored in an entry. -/
structure DateStrings where
  iso8601 : String
  rfc3339 : String
  display : String
deriving Repr, DecidableEq

/-- A parsed entry dictionary. -/
structure Entry where
  slug : String
  title : String
  tags : List String
  date : DateStrings
  content_html : String
deriving Repr, DecidableEq

/-- Function `atom_id(entry)`: `tag:<domain>,<display date>:/<slug>` for an entry,
`tag:<domain>,2009-03-04:/` for the feed itself. -/
def atom_id (entry : Option Entry) : String :=
  let domain := urlDomain URL
  match entry with
  | some e => "tag:" ++ domain ++ "," ++ e.date.display ++ ":/" ++ e.slug
  | none => "tag:" ++ domain ++ ",2009-03-04:/"

/-! ### `META_REGEX` (reprise.py line 198) and its matcher

Pattern `META_REGEX` is a slash, then four digits, a dot, one or two
digits, a dot, one or two digits, a dot, and a nonempty title; it is
searched with `findall`, of which the code uses the first match.  The
matcher below scans left to right for a `/` and then matches the tail of
the pattern.  `\d{1,2}` is greedy: two digits are preferred, and the
one-digit alternative only applies when the second character is not a
digit (when two digits match but the following `\.` fails, backtracking to
one digit would require that second digit to equal `.`, which is
impossible, so no cross-component backtracking arises). `.` does not match
a newline. -/

/-- Match `(\d{1,2})\.` at the head of the list, returning the captured
digits and the remainder after the dot. -/
def matchNumDot (s : List Char) : Option (List Char × List Char) :=
  match s with
  | a :: b :: rest =>
    if isDigitChar a then
      if isDigitChar b then
        match rest with
        | '.' :: rest2 => some ([a, b], rest2)
        | _ => none
      else if b = '.' then some ([a], rest)
      else none
    else none
  | _ => none

/-- Match the trailing `(.+)`: a nonempty greedy run of non-newline
characters. -/
def takeTitle : List Char → Option (List Char)
  | [] => none
  | c :: rest =>
    if c = '\n' then none
    else some (c :: rest.takeWhile (fun x => x ≠ '\n'))

/-- Match `(\d{4})\.(\d{1,2})\.(\d{1,2})\.(.+)` (the part after the slash). -/
def matchMetaAfterSlash (s : List Char) :
    Option (List Char × List Char × List Char × List Char) :=
  match s with
  | y1 :: y2 :: y3 :: y4 :: '.' :: rest =>
    if isDigitChar y1 && isDigitChar y2 && isDigitChar y3 && isDigitChar y4 then
      match matchNumDot rest with
      | none => none
      | some (mm, rest2) =>
        match matchNumDot rest2 with
        | none => none
        | some (dd, rest3) =>
          match takeTitle rest3 with
          | none => none
          | some t => some ([y1, y2, y3, y4], mm, dd, t)
    else none
  | _ => none

/-- Leftmost match of `META_REGEX` in a path (the `match[0]` the code uses). -/
def metaFind : List Char → Option (List Char × List Char × List Char × List Char)
  | [] => none
  | c :: rest =>
    match (if c = '/' then matchMetaAfterSlash rest else none) with
    | some r => some r
    | none => metaFind rest

/-- Model of `int(d)` on a captured digit group. -/
def digitsToNat (l : List Char) : Nat :=
  l.foldl (fun n c => 10 * n + (c.toNat - 48)) 0

/-- Model of Python `str.split()`: split on whitespace runs, dropping empty
tokens. -/
def wsSplit : List Char → List (List Char)
  | [] => []
  | c :: rest =>
    if isSpaceChar c then wsSplit rest
    else (c :: rest.takeWhile (fun x => ¬ isSpaceChar x)) ::
      wsSplit (rest.dropWhile (fun x => ¬ isSpaceChar x))
termination_by l => l.length
decreasing_by
  · simp only [List.length_cons]
    omega
  · have := List.Sublist.length_le
      (List.dropWhile_sublist (l := rest) (fun x => ¬ isSpaceChar x))
    simp only [List.length_cons]
    omega

/-- Model of `msg['Tags'].split()`. -/
def splitTokens (s : String) : List String := (wsSplit s.data).map String.mk

/-! ### Errors, options and collaborator environments -/

/-- Fatal errors of a run (Python exceptions propagating out of the step
that raised them). -/
inductive Err where
  | templateMissing : String → Err
  | usageError : Err
  | invalidDate : Nat → Nat → Nat → Err
  | renderFailed : String → Err
  | assetsMissing : Err
  | emptyFeed : Err
deriving Repr, DecidableEq

/-- The `--markup` choice accepted by `handle_args`. -/
inductive MarkupChoice where
  | reST : MarkupChoice
  | markdown : MarkupChoice
deriving Repr, DecidableEq

/-- Parsed CLI options. -/
structure Options where
  markup : MarkupChoice
deriving Repr, DecidableEq

/-- One file of the source directory: its path and the parts of its
email-format content the parser reads. -/
structure SourceFile where
  path : String
  tagsHeader : String
  payload : String
deriving Repr, DecidableEq

/-- Collaborators used while parsing entries: the process time environment,
the two markup renderers (`docutils` and `markdown`), and `smartyPants`. -/
structure ParseEnv where
  timeEnv : TimeEnv
  restRender : String → String
  mdRender : String → String
  pretty : String → String

/-- Model of `_markup(content, options)`. -/
def pyMarkup (env : ParseEnv) (opts : Options) (content : String) : String :=
  match opts.markup with
  | .reST => env.restRender content
  | .markdown => env.mdRender content

/-- Range and calendar checks performed by the `datetime` constructor
(`MINYEAR = 1`, `MAXYEAR = 9999`). -/
def datetimeOk (y m d : Nat) : Bool :=
  1 ≤ y && y ≤ 9999 && 1 ≤ m && m ≤ 12 && 1 ≤ d && d ≤ daysInMonth y m

/-- The `date` dictionary of an entry. -/
def mkDateStrings (env : ParseEnv) (dt : PDate) : DateStrings :=
  { iso8601 := isoformat dt, rfc3339 := rfc3339 env.timeEnv dt, display := displayDate dt }

/-- The loop body of `read_and_parse_entries`: files whose path does not
match `META_REGEX` are skipped; a matching path with an invalid date makes
`datetime(...)` raise, aborting the run. -/
def parseFiles (env : ParseEnv) (opts : Options) : List SourceFile → Except Err (List Entry)
  | [] => .ok []
  | f :: rest =>
    match metaFind f.path.data with
    | none => parseFiles env opts rest
    | some (ys, ms, ds, rawTitle) =>
      let y := digitsToNat ys
      let m := digitsToNat ms
      let d := digitsToNat ds
      if datetimeOk y m d then
        let dt : PDate := ⟨y, m, d⟩
        let content := pyMarkup env opts f.payload
        match parseFiles env opts rest with
        | .error e => .error e
        | .ok entries =>
          .ok ({ slug := slugify (String.mk rawTitle),
                 title := titleOf (String.mk rawTitle),
                 tags := splitTokens f.tagsHeader,
                 date := mkDateStrings env dt,
                 content_html := env.pretty content } :: entries)
      else .error (.invalidDate y m d)

/-- Model of `entries.sort(key=lambda x: x['date']['iso8601'], reverse=True)`:
a stable sort putting larger ISO strings first. -/
def sortEntries (l : List Entry) : List Entry :=
  l.mergeSort (fun a b => decide (b.date.iso8601 ≤ a.date.iso8601))

/-- Function `read_and_parse_entries` from reprise.py. -/
def read_and_parse_entries (env : ParseEnv) (opts : Options)
    (files : List SourceFile) : Except Err (List Entry) :=
  match parseFiles env opts files with
  | .error e => .error e
  | .ok l => .ok (sortEntries l)

/-! ### Atom feeds (reprise.py lines 140-157) -/

/-- One `entry` element of the feed. -/
structure AtomEntry where
  id : String
  title : String
  linkHref : String
  updated : String
  content : String
deriving Repr, DecidableEq

/-- The `feed` element. -/
structure AtomFeed where
  authorName : String
  id : String
  title : String
  linkHref : String
  selfHref : String
  updated : String
  entries : List AtomEntry
deriving Repr, DecidableEq

/-- The entry element built for one entry inside `generate_atom`. -/
def atomEntryOf (e : Entry) : AtomEntry :=
  { id := atom_id (some e), title := e.title, linkHref := URL ++ "/" ++ e.slug,
    updated := e.date.rfc3339, content := e.content_html }

/-- Model of `generate_atom`: the entry elements are built for every entry,
then the feed element reads `entries[0]`, which raises `IndexError` on an
empty list — modelled by `none`. -/
def generate_atom (entries : List Entry) (feed_url : String) : Option AtomFeed :=
  let entry_elements := entries.map atomEntryOf
  match entries with
  | [] => none
  | first :: _ =>
    some { authorName := AUTHOR_name, id := atom_id none, title := TITLE,
           linkHref := URL, selfHref := feed_url,
           updated := first.date.rfc3339, entries := entry_elements }

/-- Serialization stand-in for `lxml.etree.tostring` (the markup syntax is
irrelevant to the properties proved here). -/
def atomToString (f : AtomFeed) : String :=
  f.authorName ++ "|" ++ f.id ++ "|" ++ f.title ++ "|" ++ f.linkHref ++ "|" ++
    f.selfHref ++ "|" ++ f.updated ++ "|" ++
    String.join (f.entries.map (fun e =>
      e.id ++ ";" ++ e.title ++ ";" ++ e.linkHref ++ ";" ++ e.updated ++ ";" ++ e.content))

/-! ### Tag grouping (reprise.py lines 110-122) -/

/-- Model of `sum([e['tags'] for e in entries], [])`. -/
def tagsOf (entries : List Entry) : List String :=
  entries.foldl (fun acc e => acc ++ e.tags) []

/-- Model of `[e for e in entries if tag in e['tags']]`. -/
def byTag (entries : List Entry) (tag : String) : List Entry :=
  entries.filter (fun e => e.tags.contains tag)

/-- Model of the index feed url, `URL` followed by `/index.atom`. -/
def indexFeedUrl : String := URL ++ "/index.atom"

/-- Model of a tag feed url, `URL` followed by `/tags/<tag>.atom`. -/
def tagFeedUrl (tag : String) : String := URL ++ "/tags/" ++ tag ++ ".atom"

/-! ### Publisher state machine (reprise.py lines 200-215)

The filesystem is abstracted to the two directories the driver mutates:
the staging directory `build` and the published directory `public`
(`none` models an absent directory; a directory is a list of
path/content pairs).  The collaborators that can raise before the publish
step — template loading, CLI parsing, template rendering, the asset copy —
are supplied by the run environment as `Except` values. -/

/-- The mutable filesystem state of a run. -/
structure FileSys where
  build : Option (List (String × String))
  public : Option (List (String × String))
deriving Repr, DecidableEq

/-- Model of `write_file` into the staging directory. -/
def writeFile (fs : FileSys) (name content : String) : FileSys :=
  { fs with build := some ((fs.build.getD []) ++ [(name, content)]) }

/-- Environment of one run of `__main__`. -/
structure RunEnv where
  parseEnv : ParseEnv
  templates : Except Err (List (String × String))
  cli : Except Err Options
  sourceFiles : List SourceFile
  assets : Except Err (List (String × String))
  render : String → Except Err String
  pygmentsCss : String

/-- Model of `generate_index`: render the list template, write `index.html`, build
the feed, write `index.atom`. -/
def generate_index (env : RunEnv) (entries : List Entry) (fs : FileSys) :
    FileSys × Option Err :=
  match env.render "list.html" with
  | .error e => (fs, some e)
  | .ok html =>
    let fs1 := writeFile fs "index.html" html
    match generate_atom entries indexFeedUrl with
    | none => (fs1, some .emptyFeed)
    | some feed => (writeFile fs1 "index.atom" (atomToString feed), none)

/-- The loop of `generate_tag_indices` over the distinct tags. -/
def tagLoop (env : RunEnv) (entries : List Entry) :
    List String → FileSys → FileSys × Option Err
  | [], fs => (fs, none)
  | t :: ts, fs =>
    match env.render "list.html" with
    | .error e => (fs, some e)
    | .ok html =>
      let fs1 := writeFile fs ("tags/" ++ t ++ ".html") html
      match generate_atom (byTag entries t) (tagFeedUrl t) with
      | none => (fs1, some .emptyFeed)
      | some feed => tagLoop env entries ts (writeFile fs1 ("tags/" ++ t ++ ".atom") (atomToString feed))

/-- Model of `generate_tag_indices`: one page and one feed per distinct tag
(`set(sum([e['tags'] for e in entries], []))`). -/
def generate_tag_indices (env : RunEnv) (entries : List Entry) (fs : FileSys) :
    FileSys × Option Err :=
  tagLoop env entries (tagsOf entries).dedup fs

/-- The loop of `generate_details` over all entries. -/
def detailLoop (env : RunEnv) :
    List Entry → FileSys → FileSys × Option Err
  | [], fs => (fs, none)
  | e :: es, fs =>
    match env.render "detail.html" with
    | .error err => (fs, some err)
    | .ok html => detailLoop env es (writeFile fs (e.slug ++ ".html") html)

/-- Model of `generate_details`. -/
def generate_details (env : RunEnv) (entries : List Entry) (fs : FileSys) :
    FileSys × Option Err :=
  detailLoop env entries fs

/-- Model of `generate_404`. -/
def generate_404 (env : RunEnv) (fs : FileSys) : FileSys × Option Err :=
  match env.render "404.html" with
  | .error e => (fs, some e)
  | .ok html => (writeFile fs "404.html" html, none)

/-- Model of `generate_style`: the hand-authored stylesheet concatenated with the
pygments style definitions. -/
def generate_style (env : RunEnv) (css : String) (fs : FileSys) : FileSys :=
  writeFile fs STYLESHEET (css ++ "\n\n" ++ env.pygmentsCss)

/-- Model of `__main__`: the run sequence of reprise.py lines 200-215.
Returns the final filesystem and the fatal error, if one was raised. -/
def mainRun (env : RunEnv) (fs0 : FileSys) : FileSys × Option Err :=
  let fsA := { fs0 with build := none }
  match env.templates with
  | .error e => (fsA, some e)
  | .ok tpls =>
    match env.cli with
    | .error e => (fsA, some e)
    | .ok opts =>
      match read_and_parse_entries env.parseEnv opts env.sourceFiles with
      | .error e => (fsA, some e)
      | .ok all_entries =>
        match env.assets with
        | .error e => (fsA, some e)
        | .ok assetFiles =>
          let fsB := { fsA with build := some assetFiles }
          match generate_index env all_entries fsB with
          | (fsC, some e) => (fsC, some e)
          | (fsC, none) =>
            match generate_tag_indices env all_entries fsC with
            | (fsD, some e) => (fsD, some e)
            | (fsD, none) =>
              match generate_details env all_entries fsD with
              | (fsE, some e) => (fsE, some e)
              | (fsE, none) =>
                match generate_404 env fsE with
                | (fsF, some e) => (fsF, some e)
                | (fsF, none) =>
                  let css := (tpls.lookup STYLESHEET).getD ""
                  let fsG := generate_style env css fsF
                  let fsH := { fsG with public := none }
                  let fsI : FileSys := { build := none, public := fsH.build }
                  ({ fsI with build := none }, none)

/-! ## Supporting lemmas -/

/-- Characters of the slug alphabet `[a-z0-9_-]`. -/
def goodSlugChar (c : Char) : Bool :=
  (97 ≤ c.toNat && c.toNat ≤ 122) || (48 ≤ c.toNat && c.toNat ≤ 57) ||
    c.toNat == 95 || c.toNat == 45

theorem char_toNat_ofNat (n : Nat) (h : n < 55296) : (Char.ofNat n).toNat = n := by
  have hv : Char.isValidCharNat n := Or.inl h
  rw [Char.ofNat, dif_pos hv]
  simp [Char.ofNatAux, Char.toNat, UInt32.ofNat', UInt32.toNat, BitVec.toNat_ofNatLt]

theorem toLower_not_upper (c : Char) :
    ¬(65 ≤ (Char.toLower c).toNat ∧ (Char.toLower c).toNat ≤ 90) := by
  simp only [Char.toLower]
  split_ifs with h
  · rw [char_toNat_ofNat (c.toNat + 32) (by omega)]
    omega
  · omega

theorem collapseWs_chars (l : List Char) :
    ∀ c ∈ collapseWs l, c = '-' ∨ (c ∈ l ∧ isSpaceChar c = false) := by
  induction l using collapseWs.induct with
  | case1 => simp [collapseWs]
  | case2 c rest hsp ih =>
    intro x hx
    rw [collapseWs, if_pos hsp] at hx
    rcases List.mem_cons.mp hx with h | h
    · exact Or.inl h
    · rcases ih x h with h2 | ⟨h2, h3⟩
      · exact Or.inl h2
      · exact Or.inr ⟨List.mem_cons_of_mem c
          ((List.dropWhile_sublist _).subset h2), h3⟩
  | case3 c rest hsp ih =>
    intro x hx
    rw [collapseWs, if_neg hsp] at hx
    rcases List.mem_cons.mp hx with h | h
    · subst h
      exact Or.inr ⟨List.mem_cons_self _ _, by simpa using hsp⟩
    · rcases ih x h with h2 | ⟨h2, h3⟩
      · exact Or.inl h2
      · exact Or.inr ⟨List.mem_cons_of_mem c h2, h3⟩

theorem collapseWs_of_no_space :
    ∀ l : List Char, (∀ c ∈ l, isSpaceChar c = false) → collapseWs l = l := by
  intro l
  induction l with
  | nil => intro _; rw [collapseWs]
  | cons c rest ih =>
    intro h
    have hc : isSpaceChar c = false := h c (List.mem_cons_self _ _)
    rw [collapseWs]
    rw [if_neg (by simp [hc])]
    exact congrArg (c :: ·) (ih (fun x hx => h x (List.mem_cons_of_mem c hx)))

theorem slugifyAux_chars (l : List Char) :
    ∀ c ∈ slugifyAux l, goodSlugChar c = true := by
  intro c hc
  rcases collapseWs_chars _ c hc with h | ⟨h1, h2⟩
  · subst h
    decide
  · have hml := List.mem_filter.mp h1
    have hkeep := hml.2
    rcases List.mem_map.mp hml.1 with ⟨c0, _, hc0⟩
    have hnu : ¬(65 ≤ c.toNat ∧ c.toNat ≤ 90) := by
      rw [← hc0]; exact toLower_not_upper c0
    simp only [keepChar, isWordChar, isDigitChar, isSpaceChar, goodSlugChar,
      Bool.or_eq_true, Bool.and_eq_true, Bool.or_eq_false_iff, Bool.and_eq_false_iff,
      decide_eq_true_eq, decide_eq_false_iff_not, beq_iff_eq, beq_eq_false_iff_ne,
      ne_eq] at hkeep h2 ⊢
    omega

theorem map_eq_self_of_forall {α : Type} (f : α → α) :
    ∀ l : List α, (∀ a ∈ l, f a = a) → l.map f = l := by
  intro l
  induction l with
  | nil => intro _; rfl
  | cons a rest ih =>
    intro h
    simp only [List.map_cons]
    rw [h a (List.mem_cons_self _ _), ih (fun x hx => h x (List.mem_cons_of_mem a hx))]

theorem good_fixed_points (c : Char) (h : goodSlugChar c = true) :
    dotToSpace c = c ∧ Char.toLower c = c ∧ keepChar c = true ∧ isSpaceChar c = false := by
  simp only [goodSlugChar, Bool.or_eq_true, Bool.and_eq_true, decide_eq_true_eq,
    beq_iff_eq] at h
  refine ⟨?_, ?_, ?_, ?_⟩
  · rw [dotToSpace]
    split_ifs with hd
    · exfalso
      subst hd
      have h46 : ('.' : Char).toNat = 46 := by decide
      omega
    · rfl
  · simp only [Char.toLower]
    split_ifs with hu
    · exfalso
      omega
    · rfl
  · simp only [keepChar, isWordChar, isDigitChar, isSpaceChar, Bool.or_eq_true,
      Bool.and_eq_true, decide_eq_true_eq, beq_iff_eq]
    omega
  · simp only [isSpaceChar, Bool.or_eq_false_iff, beq_eq_false_iff_ne, ne_eq]
    omega

theorem slugifyAux_idem (l : List Char) : slugifyAux (slugifyAux l) = slugifyAux l := by
  have hg := slugifyAux_chars l
  show collapseWs ((((slugifyAux l).map dotToSpace).map Char.toLower).filter keepChar) =
    slugifyAux l
  rw [map_eq_self_of_forall dotToSpace _ (fun c hc => (good_fixed_points c (hg c hc)).1),
      map_eq_self_of_forall Char.toLower _ (fun c hc => (good_fixed_points c (hg c hc)).2.1),
      List.filter_eq_self.mpr (fun c hc => (good_fixed_points c (hg c hc)).2.2.1)]
  exact collapseWs_of_no_space _ (fun c hc => (good_fixed_points c (hg c hc)).2.2.2)

/-! ## The claims -/

/-- C3: `slugify` replaces periods with spaces, lowercases, removes every
character that is not a word character, whitespace, or hyphen, and collapses
each run of whitespace into a single hyphen; on ASCII input the result uses
only the alphabet `[a-z0-9_-]`. -/
theorem slugify_claim (s : String)
    (h : s.data.all (fun c => c.toNat < 128) = true) :
    slugify s =
      String.mk (collapseWs (((s.data.map dotToSpace).map Char.toLower).filter keepChar)) ∧
    (slugify s).data.all goodSlugChar = true := by
  refine ⟨rfl, ?_⟩
  rw [List.all_eq_true]
  intro c hc
  exact slugifyAux_chars s.data c hc

/-- C3 witness: a concrete ASCII title. -/
theorem slugify_claim_witness :
    ("Hello.World, a Test".data.all (fun c => c.toNat < 128) = true) ∧
    (slugify "Hello.World, a Test").data.all goodSlugChar = true :=
  ⟨by decide, (slugify_claim "Hello.World, a Test" (by decide)).2⟩

/-- C9: `slugify` is idempotent, because its output contains no periods, no
uppercase letters, no whitespace, and no characters the filter removes. -/
theorem slugify_idempotent_claim (s : String) : slugify (slugify s) = slugify s :=
  congrArg String.mk (slugifyAux_idem s.data)

/-! ### Sample data used by witnesses -/

def sampleDate1 : DateStrings :=
  ⟨"2023-02-10T00:00:00", "2023-02-10T00:00:00Z", "2023-02-10"⟩

def sampleDate2 : DateStrings :=
  ⟨"2023-01-05T00:00:00", "2023-01-05T00:00:00Z", "2023-01-05"⟩

def sampleEntryA : Entry := ⟨"second-post", "Second Post", ["go"], sampleDate1, "<p>2</p>"⟩

def sampleEntryB : Entry :=
  ⟨"hello-world", "Hello World", ["go", "rust"], sampleDate2, "<p>hi</p>"⟩

def sampleCatalog : List Entry := [sampleEntryA, sampleEntryB]

/-! ### Tag grouping lemmas -/

theorem foldl_append_tags (l : List Entry) :
    ∀ acc : List String,
      l.foldl (fun acc e => acc ++ e.tags) acc = acc ++ (l.map (fun e => e.tags)).flatten := by
  induction l with
  | nil => intro acc; simp
  | cons e rest ih =>
    intro acc
    simp only [List.foldl_cons, List.map_cons, List.flatten_cons, ih (acc ++ e.tags),
      List.append_assoc]

theorem tagsOf_mem (entries : List Entry) (t : String) :
    t ∈ tagsOf entries ↔ ∃ e ∈ entries, t ∈ e.tags := by
  rw [tagsOf, foldl_append_tags entries [], List.nil_append, List.mem_flatten]
  constructor
  · rintro ⟨l, hl, htl⟩
    rcases List.mem_map.mp hl with ⟨e, he, rfl⟩
    exact ⟨e, he, htl⟩
  · rintro ⟨e, he, hte⟩
    exact ⟨e.tags, List.mem_map.mpr ⟨e, he, rfl⟩, hte⟩

/-- C4: `byTag` is exactly the subsequence of the catalog whose entries
carry the tag (catalog order, no extras, no omissions), and `tagsOf` is the
union of all entries' tag lists. -/
theorem byTag_tagsOf_claim (entries : List Entry) (t : String) :
    (byTag entries t).Sublist entries ∧
    (∀ e, e ∈ byTag entries t ↔ (e ∈ entries ∧ t ∈ e.tags)) ∧
    (byTag entries t).length = entries.countP (fun e => e.tags.contains t) ∧
    (t ∈ tagsOf entries ↔ ∃ e ∈ entries, t ∈ e.tags) := by
  refine ⟨List.filter_sublist _, ?_, ?_, tagsOf_mem entries t⟩
  · intro e
    rw [byTag, List.mem_filter]
    simp [List.contains, List.elem_iff]
  · rw [byTag, ← List.countP_eq_length_filter]

/-- C4 witness: concrete catalog and tag. -/
theorem byTag_tagsOf_claim_witness :
    (byTag sampleCatalog "rust").Sublist sampleCatalog ∧
    (sampleEntryB ∈ byTag sampleCatalog "rust" ↔
      (sampleEntryB ∈ sampleCatalog ∧ "rust" ∈ sampleEntryB.tags)) ∧
    ("rust" ∈ tagsOf sampleCatalog ↔ ∃ e ∈ sampleCatalog, "rust" ∈ e.tags) :=
  ⟨(byTag_tagsOf_claim sampleCatalog "rust").1,
   (byTag_tagsOf_claim sampleCatalog "rust").2.1 sampleEntryB,
   (byTag_tagsOf_claim sampleCatalog "rust").2.2.2⟩

/-- C5: `generate_atom` fails exactly on the empty entry list; on a
non-empty list the feed has one entry element per input entry and its
`updated` equals the first entry's rfc3339 timestamp. -/
theorem generate_atom_claim (entries : List Entry) (u : String) :
    ((generate_atom entries u).isNone = true ↔ entries = []) ∧
    (∀ e0 rest, entries = e0 :: rest →
      ∃ f, generate_atom entries u = some f ∧
        f.entries.length = entries.length ∧ f.updated = e0.date.rfc3339) := by
  constructor
  · cases entries <;> simp [generate_atom]
  · intro e0 rest he
    subst he
    exact ⟨_, rfl, by simp [generate_atom], rfl⟩

/-- C5 witness: a two-entry feed. -/
theorem generate_atom_claim_witness :
    (sampleCatalog = sampleEntryA :: [sampleEntryB]) ∧
    ((generate_atom sampleCatalog indexFeedUrl).isNone = true ↔ sampleCatalog = []) ∧
    ∃ f, generate_atom sampleCatalog indexFeedUrl = some f ∧
      f.entries.length = sampleCatalog.length ∧ f.updated = sampleEntryA.date.rfc3339 :=
  ⟨rfl, (generate_atom_claim sampleCatalog indexFeedUrl).1,
   (generate_atom_claim sampleCatalog indexFeedUrl).2 sampleEntryA [sampleEntryB] rfl⟩

/-- C6: entry atom ids are `tag:<domain>,<display date>:/<slug>` and the
feed id is `tag:<domain>,2009-03-04:/` with a fixed literal epoch date,
where `<domain>` is the host portion of the canonical URL. -/
theorem atom_id_claim (e : Entry) :
    atom_id (some e) =
      "tag:" ++ urlDomain URL ++ "," ++ e.date.display ++ ":/" ++ e.slug ∧
    atom_id none = "tag:" ++ urlDomain URL ++ ",2009-03-04:/" ∧
    urlDomain URL = "simonzimmermann.com" ∧
    URL = "http://" ++ urlDomain URL :=
  ⟨rfl, rfl, by decide, by decide⟩

/-- C10: every tag the tag-index generator iterates over comes from some
entry's tag list, so the per-tag entry list is never empty and the
`entries[0]` indexing inside `generate_atom` cannot fail on the tag-feed
path. -/
theorem tag_feed_nonempty_claim (entries : List Entry) (t : String) (u : String)
    (h : t ∈ (tagsOf entries).dedup) :
    byTag entries t ≠ [] ∧ (generate_atom (byTag entries t) u).isSome = true := by
  have h1 : t ∈ tagsOf entries := List.mem_dedup.mp h
  obtain ⟨e, he, hte⟩ := (tagsOf_mem entries t).mp h1
  have h3 : e ∈ byTag entries t := by
    rw [byTag, List.mem_filter]
    exact ⟨he, by simp [List.contains, List.elem_iff]; exact hte⟩
  have h4 : byTag entries t ≠ [] := by
    intro hnil
    rw [hnil] at h3
    exact absurd h3 (List.not_mem_nil e)
  refine ⟨h4, ?_⟩
  cases hb : byTag entries t with
  | nil => exact absurd hb h4
  | cons a as => simp [generate_atom]

/-- C10 witness: the tag `rust` of the sample catalog. -/
theorem tag_feed_nonempty_claim_witness :
    byTag sampleCatalog "rust" ≠ [] ∧
    (generate_atom (byTag sampleCatalog "rust") (tagFeedUrl "rust")).isSome = true :=
  tag_feed_nonempty_claim sampleCatalog "rust" (tagFeedUrl "rust") (by decide)

/-! ### Parser claims -/

def sampleTimeEnv : TimeEnv := ⟨false, 0, 0⟩

def sampleParseEnv : ParseEnv := ⟨sampleTimeEnv, id, id, id⟩

def sampleOptions : Options := ⟨.markdown⟩

/-- A file whose name does not match `META_REGEX`. -/
def fileNoMatch : SourceFile := ⟨"entries/notes.txt", "misc", "free text"⟩

/-- A file matching the pattern whose month is not a calendar month. -/
def fileBadDate : SourceFile := ⟨"entries/2023.13.01.Bad", "go", "body"⟩

/-- C8: a source file whose path does not match
`/(\d4)\.(\d1,2)\.(\d1,2)\.(.+)` is silently excluded; a matching path
whose numeric groups are not a valid calendar date makes the run abort
with a fatal error and no partial catalog. -/
theorem parser_skip_or_fatal_claim (env : ParseEnv) (opts : Options)
    (f : SourceFile) (rest : List SourceFile) :
    (metaFind f.path.data = none →
      parseFiles env opts (f :: rest) = parseFiles env opts rest) ∧
    (∀ ys ms ds t, metaFind f.path.data = some (ys, ms, ds, t) →
      datetimeOk (digitsToNat ys) (digitsToNat ms) (digitsToNat ds) = false →
      parseFiles env opts (f :: rest) =
        .error (.invalidDate (digitsToNat ys) (digitsToNat ms) (digitsToNat ds))) := by
  constructor
  · intro h
    simp only [parseFiles, h]
  · intro ys ms ds t hm hbad
    simp only [parseFiles, hm, hbad, Bool.false_eq_true, if_false]

/-- C8 witness: `notes.txt` is skipped; month 13 aborts the run. -/
theorem parser_skip_or_fatal_claim_witness :
    (parseFiles sampleParseEnv sampleOptions [fileNoMatch] =
      parseFiles sampleParseEnv sampleOptions []) ∧
    (parseFiles sampleParseEnv sampleOptions [fileBadDate] =
      .error (.invalidDate (digitsToNat ['2', '0', '2', '3'])
        (digitsToNat ['1', '3']) (digitsToNat ['0', '1']))) ∧
    digitsToNat ['2', '0', '2', '3'] = 2023 ∧ digitsToNat ['1', '3'] = 13 ∧
    digitsToNat ['0', '1'] = 1 :=
  ⟨(parser_skip_or_fatal_claim sampleParseEnv sampleOptions fileNoMatch []).1 (by decide),
   (parser_skip_or_fatal_claim sampleParseEnv sampleOptions fileBadDate []).2
     ['2', '0', '2', '3'] ['1', '3'] ['0', '1'] ['B', 'a', 'd'] (by decide) (by decide),
   by decide, by decide, by decide⟩

/-- Transitivity of the sort comparator of `read_and_parse_entries`. -/
theorem entryLe_trans (a b c : Entry)
    (h1 : decide (b.date.iso8601 ≤ a.date.iso8601) = true)
    (h2 : decide (c.date.iso8601 ≤ b.date.iso8601) = true) :
    decide (c.date.iso8601 ≤ a.date.iso8601) = true := by
  simp only [decide_eq_true_eq] at h1 h2 ⊢
  exact le_trans h2 h1

/-- Totality of the sort comparator of `read_and_parse_entries`. -/
theorem entryLe_total (a b : Entry) :
    (decide (b.date.iso8601 ≤ a.date.iso8601) ||
      decide (a.date.iso8601 ≤ b.date.iso8601)) = true := by
  simp only [Bool.or_eq_true, decide_eq_true_eq]
  exact le_total _ _

/-- C2: the catalog built by `read_and_parse_entries` is the stable
descending sort of the parsed entries by their ISO-8601 date string:
adjacent entries are non-increasing, the sort is a permutation, and
entries with equal date strings keep their original read order. -/
theorem read_and_parse_entries_sorted_claim (env : ParseEnv) (opts : Options)
    (files : List SourceFile) (l : List Entry)
    (h : parseFiles env opts files = .ok l) :
    read_and_parse_entries env opts files = .ok (sortEntries l) ∧
    List.Pairwise (fun a b => b.date.iso8601 ≤ a.date.iso8601) (sortEntries l) ∧
    (sortEntries l).Perm l ∧
    (∀ dstr, (sortEntries l).filter (fun e => e.date.iso8601 == dstr) =
      l.filter (fun e => e.date.iso8601 == dstr)) := by
  have htrans : ∀ a b c : Entry, decide (b.date.iso8601 ≤ a.date.iso8601) = true →
      decide (c.date.iso8601 ≤ b.date.iso8601) = true →
      decide (c.date.iso8601 ≤ a.date.iso8601) = true := entryLe_trans
  have htotal : ∀ a b : Entry, (decide (b.date.iso8601 ≤ a.date.iso8601) ||
      decide (a.date.iso8601 ≤ b.date.iso8601)) = true := entryLe_total
  refine ⟨by rw [read_and_parse_entries, h], ?_, List.mergeSort_perm l _, ?_⟩
  · exact (List.sorted_mergeSort htrans htotal l).imp
      (fun hab => by simpa using hab)
  · intro dstr
    have hall : ∀ e ∈ l.filter (fun e => e.date.iso8601 == dstr),
        e.date.iso8601 = dstr := by
      intro e he
      have := List.of_mem_filter he
      simpa [beq_iff_eq] using this
    have hpw : List.Pairwise
        (fun a b => decide (b.date.iso8601 ≤ a.date.iso8601) = true)
        (l.filter (fun e => e.date.iso8601 == dstr)) := by
      apply List.pairwise_of_forall_mem_list
      intro a ha b hb
      rw [hall a ha, hall b hb]
      simp
    have hstab : (l.filter (fun e => e.date.iso8601 == dstr)).Sublist (sortEntries l) :=
      List.sublist_mergeSort htrans htotal hpw (List.filter_sublist l)
    have hsub2 : (l.filter (fun e => e.date.iso8601 == dstr)).Sublist
        ((sortEntries l).filter (fun e => e.date.iso8601 == dstr)) := by
      have hff : (l.filter (fun e => e.date.iso8601 == dstr)).filter
          (fun e => e.date.iso8601 == dstr) =
          l.filter (fun e => e.date.iso8601 == dstr) :=
        List.filter_eq_self.mpr (fun a ha => (List.mem_filter.mp ha).2)
      have hsf := List.Sublist.filter (fun e => e.date.iso8601 == dstr) hstab
      rw [hff] at hsf
      exact hsf
    have hperm : ((sortEntries l).filter (fun e => e.date.iso8601 == dstr)).Perm
        (l.filter (fun e => e.date.iso8601 == dstr)) :=
      (List.mergeSort_perm l _).filter _
    exact (List.Sublist.eq_of_length hsub2 hperm.length_eq.symm).symm

/-- Extract the catalog of a successful parse (used by witnesses). -/
def okEntries (x : Except Err (List Entry)) : List Entry :=
  match x with
  | .ok l => l
  | .error _ => []

/-- Two well-formed source files (read in ascending date order). -/
def sampleFiles : List SourceFile :=
  [⟨"entries/2023.1.5.Hello.World", "go rust", "b1"⟩,
   ⟨"entries/2023.2.10.Second.Post", "go", "b2"⟩]

/-- C2 witness: a concrete two-file run. -/
theorem read_and_parse_entries_sorted_claim_witness :
    read_and_parse_entries sampleParseEnv sampleOptions sampleFiles =
      .ok (sortEntries (okEntries (parseFiles sampleParseEnv sampleOptions sampleFiles))) ∧
    List.Pairwise (fun a b => b.date.iso8601 ≤ a.date.iso8601)
      (sortEntries (okEntries (parseFiles sampleParseEnv sampleOptions sampleFiles))) ∧
    (sortEntries (okEntries (parseFiles sampleParseEnv sampleOptions sampleFiles))).filter
        (fun e => e.date.iso8601 == "2023-01-05T00:00:00") =
      (okEntries (parseFiles sampleParseEnv sampleOptions sampleFiles)).filter
        (fun e => e.date.iso8601 == "2023-01-05T00:00:00") :=
  ⟨(read_and_parse_entries_sorted_claim sampleParseEnv sampleOptions sampleFiles _ rfl).1,
   (read_and_parse_entries_sorted_claim sampleParseEnv sampleOptions sampleFiles _ rfl).2.1,
   (read_and_parse_entries_sorted_claim sampleParseEnv sampleOptions sampleFiles _ rfl).2.2.2
     "2023-01-05T00:00:00"⟩

/-! ### Publisher claims -/

theorem writeFile_public (fs : FileSys) (n c : String) :
    (writeFile fs n c).public = fs.public := rfl

theorem generate_index_public (env : RunEnv) (entries : List Entry) (fs : FileSys) :
    (generate_index env entries fs).1.public = fs.public := by
  unfold generate_index
  rcases hr : env.render "list.html" with e | html
  · rfl
  · rcases hga : generate_atom entries indexFeedUrl with _ | feed <;> rfl

theorem tagLoop_public (env : RunEnv) (entries : List Entry) :
    ∀ (ts : List String) (fs : FileSys), (tagLoop env entries ts fs).1.public = fs.public := by
  intro ts
  induction ts with
  | nil => intro fs; rfl
  | cons t ts ih =>
    intro fs
    unfold tagLoop
    rcases hr : env.render "list.html" with e | html
    · rfl
    · rcases hga : generate_atom (byTag entries t) (tagFeedUrl t) with _ | feed
      · rfl
      · exact ih _

theorem detailLoop_public (env : RunEnv) :
    ∀ (es : List Entry) (fs : FileSys), (detailLoop env es fs).1.public = fs.public := by
  intro es
  induction es with
  | nil => intro fs; rfl
  | cons e es ih =>
    intro fs
    unfold detailLoop
    rcases hr : env.render "detail.html" with err | html
    · rfl
    · exact ih _

theorem generate_404_public (env : RunEnv) (fs : FileSys) :
    (generate_404 env fs).1.public = fs.public := by
  unfold generate_404
  rcases hr : env.render "404.html" with e | html <;> rfl

theorem mainRun_public_aux (env : RunEnv) (fs0 : FileSys) :
    (mainRun env fs0).2 = none ∨ (mainRun env fs0).1.public = fs0.public := by
  unfold mainRun
  rcases htpl : env.templates with e1 | tpls
  · right
    simp only [htpl]
  · rcases hcli : env.cli with e2 | opts
    · right
      simp only [htpl, hcli]
    · rcases hread : read_and_parse_entries env.parseEnv opts env.sourceFiles with e3 | entries
      · right
        simp only [htpl, hcli, hread]
      · rcases hass : env.assets with e4 | assetFiles
        · right
          simp only [htpl, hcli, hread, hass]
        · rcases hgi : generate_index env entries
              { build := some assetFiles, public := fs0.public } with ⟨fsC, rC⟩
          have hC : fsC.public = fs0.public := by
            have := congrArg (fun p : FileSys × Option Err => p.1.public) hgi
            simp only at this
            rw [← this, generate_index_public]
          rcases rC with _ | eC
          · rcases hgt : generate_tag_indices env entries fsC with ⟨fsD, rD⟩
            have hD : fsD.public = fs0.public := by
              have := congrArg (fun p : FileSys × Option Err => p.1.public) hgt
              simp only at this
              rw [← this, generate_tag_indices, tagLoop_public, hC]
            rcases rD with _ | eD
            · rcases hgd : generate_details env entries fsD with ⟨fsE, rE⟩
              have hE : fsE.public = fs0.public := by
                have := congrArg (fun p : FileSys × Option Err => p.1.public) hgd
                simp only at this
                rw [← this, generate_details, detailLoop_public, hD]
              rcases rE with _ | eE
              · rcases hg4 : generate_404 env fsE with ⟨fsF, rF⟩
                rcases rF with _ | eF
                · left
                  simp only [htpl, hcli, hread, hass, hgi, hgt, hgd, hg4]
                · right
                  have hF : fsF.public = fs0.public := by
                    have := congrArg (fun p : FileSys × Option Err => p.1.public) hg4
                    simp only at this
                    rw [← this, generate_404_public, hE]
                  simp only [htpl, hcli, hread, hass, hgi, hgt, hgd, hg4]
                  exact hF
              · right
                simp only [htpl, hcli, hread, hass, hgi, hgt, hgd]
                exact hE
            · right
              simp only [htpl, hcli, hread, hass, hgi, hgt]
              exact hD
          · right
            simp only [htpl, hcli, hread, hass, hgi]
            exact hC

/-- C1: whenever `__main__` stops with a fatal error — failed template
loading, CLI parsing, entry parsing, asset copy, or page/feed generation —
the public directory is exactly what it was before the run: only the
publish step after all generation succeeds touches it. -/
theorem mainRun_fatal_preserves_public (env : RunEnv) (fs0 : FileSys) (e : Err)
    (h : (mainRun env fs0).2 = some e) :
    (mainRun env fs0).1.public = fs0.public := by
  rcases mainRun_public_aux env fs0 with hn | hp
  · rw [hn] at h
    cases h
  · exact hp

/-- An environment whose template directory is missing a file. -/
def envTemplateError : RunEnv :=
  { parseEnv := sampleParseEnv,
    templates := .error (.templateMissing "base.html"),
    cli := .ok sampleOptions,
    sourceFiles := sampleFiles,
    assets := .ok [("img/logo.png", "png")],
    render := fun _ => .ok "<html></html>",
    pygmentsCss := ".hl \x7b color: red \x7d" }

/-- A filesystem holding a previously published site. -/
def fsPrev : FileSys := { build := none, public := some [("index.html", "old site")] }

/-- C1 witness: a failing run leaves the previous public directory intact. -/
theorem mainRun_fatal_preserves_public_witness :
    (mainRun envTemplateError fsPrev).2 = some (.templateMissing "base.html") ∧
    (mainRun envTemplateError fsPrev).1.public = fsPrev.public ∧
    fsPrev.public = some [("index.html", "old site")] :=
  ⟨rfl, mainRun_fatal_preserves_public envTemplateError fsPrev (.templateMissing "base.html") rfl,
   rfl⟩

/-! ### Timestamp claims -/

theorem natRepr_step (n : Nat) (h : 10 ≤ n) :
    natRepr n = natRepr (n / 10) ++ [digitChar (n % 10)] := by
  rw [natRepr]
  rw [if_neg (by omega)]

theorem natRepr_one_digit (n : Nat) (h : n < 10) : (natRepr n).length = 1 := by
  rw [natRepr, if_pos h]
  rfl

theorem natRepr_length_four (n : Nat) (h1 : 1000 ≤ n) (h2 : n ≤ 9999) :
    (natRepr n).length = 4 := by
  have e1 : (natRepr n).length = (natRepr (n / 10)).length + 1 := by
    rw [natRepr_step n (by omega)]
    simp
  have e2 : (natRepr (n / 10)).length = (natRepr (n / 10 / 10)).length + 1 := by
    rw [natRepr_step (n / 10) (by omega)]
    simp
  have e3 : (natRepr (n / 10 / 10)).length = (natRepr (n / 10 / 10 / 10)).length + 1 := by
    rw [natRepr_step (n / 10 / 10) (by omega)]
    simp
  have e4 : (natRepr (n / 10 / 10 / 10)).length = 1 := natRepr_one_digit _ (by omega)
  omega

theorem addDays_zero (dt : PDate) : addDays 0 dt = dt := by
  simp [addDays, nextDays]

theorem addDays_negone (dt : PDate) : addDays (-1) dt = prevDay dt := by
  simp [addDays, prevDays]

theorem prevDay_year (dt : PDate) :
    dt.year - 1 ≤ (prevDay dt).year ∧ (prevDay dt).year ≤ dt.year := by
  unfold prevDay
  split_ifs <;> simp

/-- C7: the feed `updated` timestamp equals the entry's date-only midnight
value shifted by the process's local UTC offset (`-altzone` when the
environment reports daylight saving, `-timezone` otherwise), laid out as
`YYYY-MM-DDTHH:MM:SSZ`: the emitted calendar date and time of day
recombine to exactly `midnight + offset` seconds. -/
theorem rfc3339_claim (tz : TimeEnv) (dt : PDate)
    (hv : validMD dt = true) (hy1 : 1901 ≤ dt.year) (hy2 : dt.year ≤ 9998)
    (ho1 : -86400 < tzOffset tz) (ho2 : tzOffset tz < 86400) :
    tzOffset tz = (if tz.daylight then -tz.altzone else -tz.timezone) ∧
    ∃ Y M D hh mi ss : Nat,
      rfc3339 tz dt = String.mk (natRepr Y ++ '-' :: pad2 M ++ '-' :: pad2 D ++
        'T' :: pad2 hh ++ ':' :: pad2 mi ++ ':' :: pad2 ss ++ ['Z']) ∧
      validMD ⟨Y, M, D⟩ = true ∧ 1900 ≤ Y ∧ Y ≤ 9999 ∧ (natRepr Y).length = 4 ∧
      hh < 24 ∧ mi < 60 ∧ ss < 60 ∧
      86400 * (toOrdinal ⟨Y, M, D⟩ : Int) + ((3600 * hh + 60 * mi + ss : Nat) : Int) =
        86400 * (toOrdinal dt : Int) + tzOffset tz := by
  refine ⟨rfl, ?_⟩
  have hsplit : 86400 * Int.ediv (tzOffset tz) 86400 + Int.emod (tzOffset tz) 86400 =
      tzOffset tz := Int.ediv_add_emod (tzOffset tz) 86400
  have hnn : 0 ≤ Int.emod (tzOffset tz) 86400 := Int.emod_nonneg _ (by norm_num)
  have hlt : Int.emod (tzOffset tz) 86400 < 86400 := Int.emod_lt_of_pos _ (by norm_num)
  have hcast : ((Int.emod (tzOffset tz) 86400).toNat : Int) = Int.emod (tzOffset tz) 86400 :=
    Int.toNat_of_nonneg hnn
  have hsodlt : (Int.emod (tzOffset tz) 86400).toNat < 86400 := by omega
  have hdiv : Int.ediv (tzOffset tz) 86400 = 0 ∨ Int.ediv (tzOffset tz) 86400 = -1 := by
    omega
  rcases hdiv with hd | hd
  · refine ⟨dt.year, dt.month, dt.day, (Int.emod (tzOffset tz) 86400).toNat / 3600,
      (Int.emod (tzOffset tz) 86400).toNat % 3600 / 60,
      (Int.emod (tzOffset tz) 86400).toNat % 60, ?_, ?_, ?_, ?_, ?_, ?_, ?_, ?_, ?_⟩
    · simp only [rfc3339]
      rw [hd, addDays_zero]
      rfl
    · exact hv
    · omega
    · omega
    · exact natRepr_length_four _ (by omega) (by omega)
    · omega
    · omega
    · omega
    · have heta : (⟨dt.year, dt.month, dt.day⟩ : PDate) = dt := rfl
      rw [heta]
      omega
  · have hprev := prevDay_toOrdinal dt hv (by omega)
    have hyb := prevDay_year dt
    refine ⟨(prevDay dt).year, (prevDay dt).month, (prevDay dt).day,
      (Int.emod (tzOffset tz) 86400).toNat / 3600,
      (Int.emod (tzOffset tz) 86400).toNat % 3600 / 60,
      (Int.emod (tzOffset tz) 86400).toNat % 60, ?_, ?_, ?_, ?_, ?_, ?_, ?_, ?_, ?_⟩
    · simp only [rfc3339]
      rw [hd, addDays_negone]
      rfl
    · exact hprev.1
    · omega
    · omega
    · exact natRepr_length_four _ (by omega) (by omega)
    · omega
    · omega
    · omega
    · have heta : (⟨(prevDay dt).year, (prevDay dt).month, (prevDay dt).day⟩ : PDate) =
        prevDay dt := rfl
      rw [heta]
      have h2 := hprev.2
      omega

/-- A daylight-saving environment one hour east of UTC. -/
def tzW : TimeEnv := ⟨true, 0, -3600⟩

/-- A concrete entry date. -/
def dtW : PDate := ⟨2023, 2, 10⟩

/-- C7 witness: a concrete environment and date. -/
theorem rfc3339_claim_witness :
    tzOffset tzW = (if tzW.daylight then -tzW.altzone else -tzW.timezone) ∧
    ∃ Y M D hh mi ss : Nat,
      rfc3339 tzW dtW = String.mk (natRepr Y ++ '-' :: pad2 M ++ '-' :: pad2 D ++
        'T' :: pad2 hh ++ ':' :: pad2 mi ++ ':' :: pad2 ss ++ ['Z']) ∧
      validMD ⟨Y, M, D⟩ = true ∧ 1900 ≤ Y ∧ Y ≤ 9999 ∧ (natRepr Y).length = 4 ∧
      hh < 24 ∧ mi < 60 ∧ ss < 60 ∧
      86400 * (toOrdinal ⟨Y, M, D⟩ : Int) + ((3600 * hh + 60 * mi + ss : Nat) : Int) =
        86400 * (toOrdinal dtW : Int) + tzOffset tzW :=
  rfc3339_claim tzW dtW (by decide) (by decide) (by decide) (by decide) (by decide)

end Reprise
